import Mathlib

/-!
Verification of the confidence-estimation components of the mokapot
repository against its specification.

The repository's statistical core (`dataset.py`, `qvalues.py`, `rollup.py`)
is referenced by the tests and the CLI found in the source tree but is not
itself part of it; those components are modelled from the specification, as
indicated by the doc comment of each such definition.  The parsing layer
(`mokapot/parsers.py`) and the CLI entry point (`mokapot/brew_rollup.py`)
are present in the source tree and are embedded directly from the code.

Scores are modelled as rationals (`ℚ`), which also carry the q-values; the
target/decoy/neither labels of the estimator input are integers `+1`, `-1`
and `0`.
-/

namespace Mokapot

/-! ## TDC q-value estimator (spec §4.4)

`qvalues.py` is not part of the source tree; the estimator is modelled from
the specification. -/

/-- Modelled from the spec: the scan of §4.4 over a score-sorted-descending
sequence of labels, carrying the running count `nd` of decoys (`-1`) and
`nt` of targets (`+1`) seen so far; entries with label `0` change neither
count but keep their position.  At each position it emits the local FDR
estimate `(nd + 1) / max(nt, 1)`. -/
def fdrAux (nd nt : ℕ) : List ℤ → List ℚ
  | [] => []
  | l :: rest =>
    let nd' := if l = -1 then nd + 1 else nd
    let nt' := if l = 1 then nt + 1 else nt
    ((nd' : ℚ) + 1) / max (nt' : ℚ) 1 :: fdrAux nd' nt' rest

/-- Modelled from the spec: the sequence of local FDR estimates of §4.4,
starting from empty running counts. -/
def localFDRs (labels : List ℤ) : List ℚ :=
  fdrAux 0 0 labels

/-- Running minimum accumulated from the end of the list (the worst-score
end of a descending-sorted sequence): position `i` receives the minimum of
the entries at positions `i, i+1, …`. -/
def runningMinFromEnd : List ℚ → List ℚ
  | [] => []
  | x :: rest =>
    let r := runningMinFromEnd rest
    min x (r.headD x) :: r

/-- Modelled from the spec: the TDC q-value estimator of §4.4.  Local FDR
estimates are computed by the running-count scan and the q-values are their
running minimum accumulated from the worst-score end, which is the reading
of §4.4 under which q-values are monotonically non-decreasing as the score
decreases, and the one validated by the worked example of §8 (as §9
directs). -/
def tdc (labels : List ℤ) : List ℚ :=
  runningMinFromEnd (localFDRs labels)

/-- Closed-form local FDR at position `j`: the counts of decoys and targets
among the first `j + 1` labels (the entries "seen so far" in the scan,
label `0` contributing to neither count), with the add-one correction. -/
def fdrClosed (labels : List ℤ) (j : ℕ) : ℚ :=
  (((labels.take (j + 1)).count (-1) : ℚ) + 1) /
    max (((labels.take (j + 1)).count 1 : ℚ)) 1

/-- Running minimum accumulated from the start of the list, carrying the
minimum `m` of the entries already passed. -/
def runningMinFromStartAux (m : ℚ) : List ℚ → List ℚ
  | [] => []
  | x :: rest => min m x :: runningMinFromStartAux (min m x) rest

/-- Following the claim's words, not the model: a running minimum
accumulated from the best-score end, so that position `i` receives the
minimum local FDR over positions at or above position `i`'s score. -/
def runningMinFromStart : List ℚ → List ℚ
  | [] => []
  | x :: rest => x :: runningMinFromStartAux x rest

/-- Following the claim's words, not the model: q-values as the minimum
local FDR over all positions at or above each position's score. -/
def tdcClaimed (labels : List ℤ) : List ℚ :=
  runningMinFromStart (localFDRs labels)

theorem fdrAux_length (labels : List ℤ) : ∀ nd nt : ℕ,
    (fdrAux nd nt labels).length = labels.length := by
  induction labels with
  | nil => intro nd nt; rfl
  | cons l rest ih => intro nd nt; simp [fdrAux, ih]

theorem localFDRs_length (labels : List ℤ) :
    (localFDRs labels).length = labels.length :=
  fdrAux_length labels 0 0

theorem runningMinFromEnd_length (l : List ℚ) :
    (runningMinFromEnd l).length = l.length := by
  induction l with
  | nil => rfl
  | cons x rest ih => simp [runningMinFromEnd, ih]

theorem tdc_length (labels : List ℤ) :
    (tdc labels).length = labels.length := by
  rw [tdc, runningMinFromEnd_length, localFDRs_length]

theorem fdrAux_getD (labels : List ℤ) : ∀ (nd nt j : ℕ), j < labels.length →
    (fdrAux nd nt labels).getD j 0 =
      ((nd : ℚ) + ((labels.take (j + 1)).count (-1) : ℚ) + 1) /
        max ((nt : ℚ) + ((labels.take (j + 1)).count 1 : ℚ)) 1 := by
  induction labels with
  | nil => intro nd nt j h; simp at h
  | cons l rest ih =>
    intro nd nt j h
    match j with
    | 0 =>
      by_cases h1 : l = -1
      · subst h1
        simp [fdrAux, List.count_cons]
      · by_cases h2 : l = 1
        · subst h2
          simp [fdrAux, List.count_cons]
        · simp [fdrAux, List.count_cons, h1, h2]
    | j + 1 =>
      have hj : j < rest.length := by simpa using h
      have hstep : (fdrAux nd nt (l :: rest)).getD (j + 1) 0 =
          (fdrAux (if l = -1 then nd + 1 else nd)
            (if l = 1 then nt + 1 else nt) rest).getD j 0 := by
        simp [fdrAux]
      rw [hstep, ih _ _ j hj]
      by_cases h1 : l = -1
      · subst h1
        simp only [List.take, List.count_cons]
        norm_num
        congr 1 <;> push_cast <;> ring_nf
      · by_cases h2 : l = 1
        · subst h2
          simp only [List.take, List.count_cons]
          norm_num
          congr 1 <;> push_cast <;> ring_nf
        · simp only [List.take, List.count_cons, h1, h2, if_false]
          simp [h1, h2]

theorem localFDRs_getD (labels : List ℤ) (j : ℕ) (h : j < labels.length) :
    (localFDRs labels).getD j 0 = fdrClosed labels j := by
  rw [localFDRs, fdrAux_getD labels 0 0 j h, fdrClosed]
  norm_num

theorem runningMinFromEnd_le (l : List ℚ) : ∀ i j, i ≤ j → j < l.length →
    (runningMinFromEnd l).getD i 0 ≤ l.getD j 0 := by
  induction l with
  | nil => intro i j _ hj; simp at hj
  | cons x rest ih =>
    intro i j hij hj
    match i, j with
    | 0, 0 =>
      simpa [runningMinFromEnd] using min_le_left x ((runningMinFromEnd rest).headD x)
    | 0, j + 1 =>
      have hj' : j < rest.length := by simpa using hj
      match rest with
      | [] => simp at hj'
      | r :: rs =>
        have h1 : (runningMinFromEnd (x :: r :: rs)).getD 0 0 ≤
            (runningMinFromEnd (r :: rs)).getD 0 0 := by
          simpa [runningMinFromEnd] using
            min_le_right x (min r ((runningMinFromEnd rs).headD r))
        have h2 := ih 0 j (Nat.zero_le j) hj'
        calc (runningMinFromEnd (x :: r :: rs)).getD 0 0 ≤
            (runningMinFromEnd (r :: rs)).getD 0 0 := h1
          _ ≤ (r :: rs).getD j 0 := h2
          _ = (x :: r :: rs).getD (j + 1) 0 := by simp
    | i + 1, j + 1 =>
      have hj' : j < rest.length := by simpa using hj
      have hij' : i ≤ j := Nat.succ_le_succ_iff.mp hij
      simpa [runningMinFromEnd] using ih i j hij' hj'

theorem runningMinFromEnd_attained (l : List ℚ) : ∀ i, i < l.length →
    ∃ j, i ≤ j ∧ j < l.length ∧
      (runningMinFromEnd l).getD i 0 = l.getD j 0 := by
  induction l with
  | nil => intro i hi; simp at hi
  | cons x rest ih =>
    intro i hi
    match i with
    | 0 =>
      match rest with
      | [] => exact ⟨0, le_refl 0, by simp, by simp [runningMinFromEnd]⟩
      | r :: rs =>
        rcases le_total x ((runningMinFromEnd (r :: rs)).headD x) with hc | hc
        · refine ⟨0, le_refl 0, by simp, ?_⟩
          simp only [runningMinFromEnd, List.getD_cons_zero]
          exact min_eq_left hc
        · obtain ⟨j, _, hj, heq⟩ := ih 0 (by simp)
          refine ⟨j + 1, Nat.zero_le _, by simpa using hj, ?_⟩
          have hhead : (runningMinFromEnd (r :: rs)).headD x =
              (runningMinFromEnd (r :: rs)).getD 0 0 := by
            simp [runningMinFromEnd]
          calc (runningMinFromEnd (x :: r :: rs)).getD 0 0
              = min x ((runningMinFromEnd (r :: rs)).headD x) := by
                simp [runningMinFromEnd]
            _ = (runningMinFromEnd (r :: rs)).headD x := min_eq_right hc
            _ = (runningMinFromEnd (r :: rs)).getD 0 0 := hhead
            _ = (r :: rs).getD j 0 := heq
            _ = (x :: r :: rs).getD (j + 1) 0 := by simp
    | i + 1 =>
      have hi' : i < rest.length := by simpa using hi
      obtain ⟨j, hij, hj, heq⟩ := ih i hi'
      refine ⟨j + 1, Nat.succ_le_succ hij, by simpa using hj, ?_⟩
      simpa [runningMinFromEnd] using heq

theorem runningMinFromEnd_mono (l : List ℚ) : ∀ i, i + 1 < l.length →
    (runningMinFromEnd l).getD i 0 ≤ (runningMinFromEnd l).getD (i + 1) 0 := by
  induction l with
  | nil => intro i hi; simp at hi
  | cons x rest ih =>
    intro i hi
    match i with
    | 0 =>
      match rest with
      | [] => simp at hi
      | r :: rs =>
        simpa [runningMinFromEnd] using
          min_le_right x (min r ((runningMinFromEnd rs).headD r))
    | i + 1 =>
      have hi' : i + 1 < rest.length := by simpa using hi
      simpa [runningMinFromEnd] using ih i hi'

/-- C1 (amended: the q-value at each position is the minimum local FDR over
all positions at or *below* that position's score, i.e. a running minimum
from the worst-score end; everything else as the claim states).  For every
score-sorted-descending label sequence the estimator's value at position
`i` is a lower bound of, and is attained by, the local FDR estimates
`(nd + 1) / max(nt, 1)` at the positions `j ≥ i`, where `nd` and `nt` are
the running counts of decoy (`-1`) and target (`+1`) entries among the
first `j + 1` labels, entries with label `0` counted by neither. -/
theorem tdc_qvalue_is_min_suffix_fdr (labels : List ℤ) (i : ℕ)
    (h : i < labels.length) :
    (∀ j, i ≤ j → j < labels.length →
      (tdc labels).getD i 0 ≤ fdrClosed labels j) ∧
    ∃ j, i ≤ j ∧ j < labels.length ∧
      (tdc labels).getD i 0 = fdrClosed labels j := by
  constructor
  · intro j hij hj
    have hb := runningMinFromEnd_le (localFDRs labels) i j hij
      (by rw [localFDRs_length]; exact hj)
    rw [localFDRs_getD labels j hj] at hb
    exact hb
  · obtain ⟨j, hij, hj, heq⟩ := runningMinFromEnd_attained (localFDRs labels) i
      (by rw [localFDRs_length]; exact h)
    rw [localFDRs_length] at hj
    rw [localFDRs_getD labels j hj] at heq
    exact ⟨j, hij, hj, heq⟩

theorem tdc_qvalue_is_min_suffix_fdr_witness :
    (0 < ([1, 1, -1] : List ℤ).length) ∧
      ((∀ j, 0 ≤ j → j < ([1, 1, -1] : List ℤ).length →
        (tdc [1, 1, -1]).getD 0 0 ≤ fdrClosed [1, 1, -1] j) ∧
      ∃ j, 0 ≤ j ∧ j < ([1, 1, -1] : List ℤ).length ∧
        (tdc [1, 1, -1]).getD 0 0 = fdrClosed [1, 1, -1] j) :=
  ⟨by simp, tdc_qvalue_is_min_suffix_fdr [1, 1, -1] 0 (by simp)⟩

/-- C1 counterexample: on the label sequence `[+1, +1, -1]` the local FDR
estimates are `[1, 1/2, 1]`; the estimator (running minimum from the
worst-score end) yields `[1/2, 1/2, 1]`, whereas the claim's "minimum
local FDR over all positions at or above that position's score (a running
minimum from the best-score end)" yields `[1, 1/2, 1/2]`: they differ at
the best-scoring position, so the claim as stated fails. -/
theorem tdc_direction_counterexample :
    tdc [1, 1, -1] = [1/2, 1/2, 1] ∧
      tdcClaimed [1, 1, -1] = [1, 1/2, 1/2] ∧
      tdc [1, 1, -1] ≠ tdcClaimed [1, 1, -1] := by
  refine ⟨?_, ?_, ?_⟩ <;>
    norm_num [tdc, tdcClaimed, localFDRs, fdrAux, runningMinFromEnd,
      runningMinFromStart, runningMinFromStartAux]

/-- C2: for every input to the q-value estimator, the q-values listed
best-to-worst by score are monotonically non-decreasing:
`q[i] ≤ q[i+1]` for every adjacent pair of positions. -/
theorem tdc_qvalues_monotone (labels : List ℤ) (i : ℕ)
    (h : i + 1 < labels.length) :
    (tdc labels).getD i 0 ≤ (tdc labels).getD (i + 1) 0 :=
  runningMinFromEnd_mono (localFDRs labels) i
    (by rw [localFDRs_length]; exact h)

theorem tdc_qvalues_monotone_witness :
    (0 + 1 < ([1, 1, -1] : List ℤ).length) ∧
      (tdc [1, 1, -1]).getD 0 0 ≤ (tdc [1, 1, -1]).getD 1 0 :=
  ⟨by simp, tdc_qvalues_monotone [1, 1, -1] 0 (by simp)⟩

/-! ## Label assignment (spec §4.2)

`dataset.py` is not part of the source tree; `LinearPsmDataset._update_labels`
is modelled from the specification. -/

/-- Modelled from the spec: one scored entry of §4.2's label assignment: a
score and the raw binary label, `true` for target (`+1`) and `false` for
decoy (`-1`). -/
structure ScoredLabel where
  score : ℚ
  target : Bool
deriving DecidableEq, Inhabited

/-- Modelled from the spec: the running decoy count of §4.4 at threshold
`s`, i.e. the number of decoy rows whose score is at or above `s`. -/
def decoysAtOrAbove (rows : List ScoredLabel) (s : ℚ) : ℕ :=
  rows.countP (fun r => !r.target && s ≤ r.score)

/-- Modelled from the spec: the running target count of §4.4 at threshold
`s`, i.e. the number of target rows whose score is at or above `s`. -/
def targetsAtOrAbove (rows : List ScoredLabel) (s : ℚ) : ℕ :=
  rows.countP (fun r => r.target && s ≤ r.score)

/-- Modelled from the spec: the local FDR estimate
`(nd + 1) / max(nt, 1)` of §4.4 at score threshold `s`.  Taking the
running counts at score granularity makes entries with tied scores share
the counts reached at the end of their tie group, the reading validated by
the worked example of §8 (as §9 directs). -/
def localFDRAt (rows : List ScoredLabel) (s : ℚ) : ℚ :=
  ((decoysAtOrAbove rows s : ℚ) + 1) / max ((targetsAtOrAbove rows s : ℚ)) 1

/-- Modelled from the spec: the q-value of §4.4 at score `s`: the minimum
local FDR over the thresholds at scores occurring among the rows at or
below `s` (the running minimum from the worst-score end, expressed
denotationally per score). -/
def qvalueAt (rows : List ScoredLabel) (s : ℚ) : ℚ :=
  (((rows.map ScoredLabel.score).filter (fun t => t ≤ s)).map
    (localFDRAt rows)).foldr min (localFDRAt rows s)

/-- Modelled from the spec: `LinearPsmDataset._update_labels` per §4.2:
compute q-values on the scored rows and produce, in the original row
order, the 3-state labels: the original label where the row is a target
and its q-value is at most `eval_fdr`, `-1` where the row is a decoy
(decoys always retained), and `0` for targets whose q-value exceeds
`eval_fdr`. -/
def updateLabels (rows : List ScoredLabel) (evalFDR : ℚ) : List ℤ :=
  rows.map (fun r =>
    if r.target then (if qvalueAt rows r.score ≤ evalFDR then 1 else 0)
    else -1)

theorem updateLabels_getD (rows : List ScoredLabel) (evalFDR : ℚ) (i : ℕ)
    (h : i < rows.length) :
    (updateLabels rows evalFDR).getD i 0 =
      if (rows.getD i default).target then
        (if qvalueAt rows (rows.getD i default).score ≤ evalFDR then 1 else 0)
      else -1 := by
  have hlen : i < (updateLabels rows evalFDR).length := by
    simpa [updateLabels] using h
  rw [List.getD_eq_getElem _ _ hlen, List.getD_eq_getElem _ _ h]
  simp [updateLabels]

/-- C3: label assignment on the score vector `[6,5,3,3,2,1]` with targets
at the first three rows, decoys at the last three (the ranks the documented
example places them at) and `eval_fdr = 0.5` returns exactly
`[1, 1, 0, -1, -1, -1]` in original row order; and in general every decoy
maps to `-1` (never excluded), every target whose q-value is at most the
threshold keeps label `1`, and every target above the threshold maps to
`0`. -/
theorem update_labels_spec :
    updateLabels [⟨6, true⟩, ⟨5, true⟩, ⟨3, true⟩, ⟨3, false⟩, ⟨2, false⟩,
        ⟨1, false⟩] (1/2) = [1, 1, 0, -1, -1, -1] ∧
    ∀ (rows : List ScoredLabel) (evalFDR : ℚ) (i : ℕ), i < rows.length →
      ((rows.getD i default).target = false →
        (updateLabels rows evalFDR).getD i 0 = -1) ∧
      ((rows.getD i default).target = true →
        qvalueAt rows (rows.getD i default).score ≤ evalFDR →
        (updateLabels rows evalFDR).getD i 0 = 1) ∧
      ((rows.getD i default).target = true →
        evalFDR < qvalueAt rows (rows.getD i default).score →
        (updateLabels rows evalFDR).getD i 0 = 0) := by
  constructor
  · norm_num [updateLabels, qvalueAt, localFDRAt, decoysAtOrAbove,
      targetsAtOrAbove, List.countP_cons, List.filter_cons]
  · intro rows evalFDR i h
    rw [updateLabels_getD rows evalFDR i h]
    refine ⟨fun ht => by rw [if_neg (by rw [ht]; simp)],
      fun ht hq => by rw [if_pos ht, if_pos hq],
      fun ht hq => by rw [if_pos ht, if_neg (not_le.mpr hq)]⟩

theorem update_labels_spec_witness :
    (3 < ([⟨6, true⟩, ⟨5, true⟩, ⟨3, true⟩, ⟨3, false⟩, ⟨2, false⟩,
        ⟨1, false⟩] : List ScoredLabel).length) ∧
    ((([⟨6, true⟩, ⟨5, true⟩, ⟨3, true⟩, ⟨3, false⟩, ⟨2, false⟩,
        ⟨1, false⟩] : List ScoredLabel).getD 3 default).target = false) ∧
    (updateLabels [⟨6, true⟩, ⟨5, true⟩, ⟨3, true⟩, ⟨3, false⟩, ⟨2, false⟩,
        ⟨1, false⟩] (1/2)).getD 3 0 = -1 :=
  ⟨by simp, by rfl,
    (update_labels_spec.2 [⟨6, true⟩, ⟨5, true⟩, ⟨3, true⟩, ⟨3, false⟩,
      ⟨2, false⟩, ⟨1, false⟩] (1/2) 3 (by simp)).1 (by rfl)⟩

/-! ## PIN parsing (`mokapot/parsers.py`, embedded from the source) -/

/-- Cell of a parsed PIN table: after `pandas.to_numeric(errors="ignore")`
a value is either numeric or left as text. -/
inductive PinValue where
  | num (q : ℚ)
  | txt (s : String)
deriving DecidableEq

/-- Parsed tab-delimited table: the column names and the cells, one value
list per column, aligned with `columns`. -/
structure PinTable where
  columns : List String
  colValues : List (List PinValue)
deriving DecidableEq

/-- Lower-casing of a column name as a character list; mirrors Python's
`str.lower` on the ASCII column names of a PIN header. -/
def lowerName (s : String) : List Char :=
  s.data.map Char.toLower

/-- Embeds `_parse_pin` (parsers.py lines 87–99): the first raw row becomes
the column names (`pin_df.columns = pin_df.loc[0, :].values`) and is
dropped, so the pandas index of the remaining `n` data rows is `1..n`;
`reset_index()` then moves that index into a new first column named
`"index"`.  File reading and the per-cell numeric coercion are abstracted:
the data arrives column-wise as `body`, one list per header column, each of
length `n`. -/
def parsePin (header : List String) (n : ℕ) (body : List (List PinValue)) :
    PinTable :=
  { columns := "index" :: header
    colValues := (List.range n).map (fun i => PinValue.num (i + 1)) :: body }

/-- Embeds read_pin line 51: the columns whose lower-cased name is
`specid`. -/
def specidCols (cols : List String) : List String :=
  cols.filter (fun c => lowerName c == "specid".data)

/-- Embeds read_pin line 52: the columns whose lower-cased name is
`peptide`. -/
def peptideCols (cols : List String) : List String :=
  cols.filter (fun c => lowerName c == "peptide".data)

/-- Embeds read_pin line 53: the columns whose lower-cased name is
`proteins`. -/
def proteinCols (cols : List String) : List String :=
  cols.filter (fun c => lowerName c == "proteins".data)

/-- Embeds read_pin line 54: the columns whose lower-cased name is
`label`. -/
def labelCols (cols : List String) : List String :=
  cols.filter (fun c => lowerName c == "label".data)

/-- Embeds read_pin line 55: the columns whose lower-cased name is
`calcmass`. -/
def calcmassCols (cols : List String) : List String :=
  cols.filter (fun c => lowerName c == "calcmass".data)

/-- Embeds read_pin lines 56–57: the columns whose lower-cased name is
`scannr` or `expmass`. -/
def spectraCols (cols : List String) : List String :=
  cols.filter (fun c => lowerName c == "scannr".data ||
    lowerName c == "expmass".data)

/-- Embeds read_pin lines 59–60: the concatenation of all non-feature
column names. -/
def nonfeatCols (cols : List String) : List String :=
  specidCols cols ++ spectraCols cols ++ peptideCols cols ++
    proteinCols cols ++ labelCols cols ++ calcmassCols cols

/-- Embeds read_pin line 62: every column not among the non-feature
columns is a feature. -/
def featureCols (cols : List String) : List String :=
  cols.filter (fun c => decide (c ∉ nonfeatCols cols))

/-- Embeds the label conversion of read_pin line 76: `(label + 1) / 2`,
applied elementwise to the label column.  PIN label values are numeric; on
a textual cell the pandas arithmetic would raise, a path unreachable for
well-formed PIN input and modelled as the identity. -/
def convertLabel : PinValue → PinValue
  | .num q => .num ((q + 1) / 2)
  | .txt s => .txt s

/-- Column lookup by name, first match, as `pin_df[name]`. -/
def getColAux : List String → List (List PinValue) → String → List PinValue
  | [], _, _ => []
  | _ :: _, [], _ => []
  | c :: cs, v :: vs, name => if c = name then v else getColAux cs vs name

/-- Column lookup on a table. -/
def getColumn (t : PinTable) (name : String) : List PinValue :=
  getColAux t.columns t.colValues name

/-- Elementwise update of the column called `name`, as
`pin_df[name] = f(pin_df[name])`. -/
def setColAux (f : PinValue → PinValue) :
    List String → List (List PinValue) → String → List (List PinValue)
  | c :: cs, v :: vs, name =>
    (if c = name then v.map f else v) :: setColAux f cs vs name
  | _, vs, _ => vs

/-- Elementwise update of one column of a table. -/
def setColumn (t : PinTable) (name : String) (f : PinValue → PinValue) :
    PinTable :=
  { columns := t.columns
    colValues := setColAux f t.columns t.colValues name }

/-- Embeds the dataset constructed by read_pin lines 78–83: the converted
table together with the column-role assignment. -/
structure LinearPsmDataset where
  psms : PinTable
  target_column : String
  spectrum_columns : List String
  peptide_columns : List String
  protein_column : String
  feature_columns : List String
deriving DecidableEq

/-- Embeds `read_pin` (parsers.py lines 16–83) on one parsed table: locate
the required columns case-insensitively, raise the two multiplicity errors
and then the missing-column error before any further processing, and only
then convert the label column and build the dataset. -/
def readPin (t : PinTable) : Except String LinearPsmDataset :=
  if 1 < (labelCols t.columns).length then
    .error "More than one label column found in pin file."
  else if 1 < (proteinCols t.columns).length then
    .error "More than one protein column found in pin file."
  else
    match specidCols t.columns, peptideCols t.columns, proteinCols t.columns,
        labelCols t.columns, spectraCols t.columns with
    | _ :: _, _ :: _, p0 :: _, l0 :: _, _ :: _ =>
      .ok { psms := setColumn t l0 convertLabel
            target_column := l0
            spectrum_columns := spectraCols t.columns
            peptide_columns := peptideCols t.columns
            protein_column := p0
            feature_columns := featureCols t.columns }
    | _, _, _, _, _ =>
      .error "This PIN format is incompatible with mokapot. Please verify that the required columns are present."

theorem getColAux_setColAux (f : PinValue → PinValue) :
    ∀ (cols : List String) (vals : List (List PinValue)) (name : String),
      getColAux cols (setColAux f cols vals name) name =
        (getColAux cols vals name).map f := by
  intro cols
  induction cols with
  | nil => intro vals name; simp [getColAux, setColAux]
  | cons c cs ih =>
    intro vals name
    match vals with
    | [] => simp [getColAux, setColAux]
    | v :: vs =>
      by_cases hc : c = name
      · simp [getColAux, setColAux, hc]
      · simp [getColAux, setColAux, hc, ih]

theorem readPin_ok_shape (t : PinTable) (d : LinearPsmDataset)
    (h : readPin t = .ok d) :
    (labelCols t.columns).length ≤ 1 ∧ (proteinCols t.columns).length ≤ 1 ∧
      specidCols t.columns ≠ [] ∧ peptideCols t.columns ≠ [] ∧
      proteinCols t.columns ≠ [] ∧ labelCols t.columns ≠ [] ∧
      spectraCols t.columns ≠ [] := by
  unfold readPin at h
  by_cases h1 : 1 < (labelCols t.columns).length
  · rw [if_pos h1] at h
    exact absurd h (by simp)
  · rw [if_neg h1] at h
    by_cases h2 : 1 < (proteinCols t.columns).length
    · rw [if_pos h2] at h
      exact absurd h (by simp)
    · rw [if_neg h2] at h
      split at h
      · rename_i heq1 heq2 heq3 heq4 heq5
        refine ⟨by omega, by omega, ?_, ?_, ?_, ?_, ?_⟩ <;> simp_all
      · exact absurd h (by simp)

/-- C7: read_pin fails fast, before constructing any dataset, with a
descriptive error whenever the parsed input has more than one label
column, more than one protein column, or is missing any required column
among specid, scannr/expmass, peptide, proteins and label; in every such
case no LinearPsmDataset is returned.  In the embedding the three checks
precede the label conversion and the dataset construction by
construction, mirroring lines 64–77 of parsers.py. -/
theorem read_pin_fails_fast (t : PinTable)
    (h : 1 < (labelCols t.columns).length ∨
      1 < (proteinCols t.columns).length ∨
      specidCols t.columns = [] ∨ peptideCols t.columns = [] ∨
      proteinCols t.columns = [] ∨ labelCols t.columns = [] ∨
      spectraCols t.columns = []) :
    ∃ msg, readPin t = .error msg ∧ ∀ d, readPin t ≠ .ok d := by
  cases hr : readPin t with
  | error msg =>
    exact ⟨msg, rfl, fun d hd => Except.noConfusion hd⟩
  | ok d =>
    obtain ⟨a1, a2, a3, a4, a5, a6, a7⟩ := readPin_ok_shape t d hr
    rcases h with h | h | h | h | h | h | h
    · omega
    · omega
    · exact absurd h a3
    · exact absurd h a4
    · exact absurd h a5
    · exact absurd h a6
    · exact absurd h a7

theorem read_pin_fails_fast_witness :
    (1 < (labelCols (PinTable.mk ["Label", "label"] []).columns).length ∨
      1 < (proteinCols (PinTable.mk ["Label", "label"] []).columns).length ∨
      specidCols (PinTable.mk ["Label", "label"] []).columns = [] ∨
      peptideCols (PinTable.mk ["Label", "label"] []).columns = [] ∨
      proteinCols (PinTable.mk ["Label", "label"] []).columns = [] ∨
      labelCols (PinTable.mk ["Label", "label"] []).columns = [] ∨
      spectraCols (PinTable.mk ["Label", "label"] []).columns = []) ∧
    ∃ msg, readPin (PinTable.mk ["Label", "label"] []) = .error msg ∧
      ∀ d, readPin (PinTable.mk ["Label", "label"] []) ≠ .ok d :=
  ⟨Or.inl (by decide),
    read_pin_fails_fast (PinTable.mk ["Label", "label"] [])
      (Or.inl (by decide))⟩

theorem index_not_mem_nonfeat (cols : List String) :
    "index" ∉ nonfeatCols cols := by
  intro hmem
  rcases List.mem_append.mp hmem with hmem | h6
  rcases List.mem_append.mp hmem with hmem | h5
  rcases List.mem_append.mp hmem with hmem | h4
  rcases List.mem_append.mp hmem with hmem | h3
  rcases List.mem_append.mp hmem with h1 | h2
  · exact absurd (List.mem_filter.mp h1).2 (by decide)
  · exact absurd (List.mem_filter.mp h2).2 (by decide)
  · exact absurd (List.mem_filter.mp h3).2 (by decide)
  · exact absurd (List.mem_filter.mp h4).2 (by decide)
  · exact absurd (List.mem_filter.mp h5).2 (by decide)
  · exact absurd (List.mem_filter.mp h6).2 (by decide)

/-- C10: for every PIN file loaded through read_pin, `_parse_pin`'s
`reset_index` adds a first column named `"index"` holding each row's
per-file ordinal position (`1..n` for the `n` data rows: the pandas index
remaining after the header row is dropped), and because `"index"` is not
one of the recognized metadata column names, read_pin classifies this
synthetic column as a feature column of the resulting dataset. -/
theorem parse_pin_index_is_feature (header : List String) (n : ℕ)
    (body : List (List PinValue)) :
    (parsePin header n body).columns = "index" :: header ∧
    (parsePin header n body).colValues.headD [] =
      (List.range n).map (fun i => PinValue.num (i + 1)) ∧
    "index" ∈ featureCols (parsePin header n body).columns ∧
    ∀ d, readPin (parsePin header n body) = .ok d →
      "index" ∈ d.feature_columns := by
  have hmem : "index" ∈ featureCols (parsePin header n body).columns := by
    apply List.mem_filter.mpr
    refine ⟨List.mem_cons_self _ _, ?_⟩
    exact decide_eq_true (index_not_mem_nonfeat _)
  refine ⟨rfl, rfl, hmem, ?_⟩
  intro d h
  unfold readPin at h
  by_cases h1 : 1 < (labelCols (parsePin header n body).columns).length
  · rw [if_pos h1] at h
    cases h
  · rw [if_neg h1] at h
    by_cases h2 : 1 < (proteinCols (parsePin header n body).columns).length
    · rw [if_pos h2] at h
      cases h
    · rw [if_neg h2] at h
      split at h
      · cases h
        exact hmem
      · cases h

/-- Parsed single-row PIN table used as a concrete instance, with the five
required columns in realistic casing. -/
def parsePinExample : PinTable :=
  parsePin ["SpecId", "ScanNr", "Peptide", "Proteins", "Label"] 1
    [[PinValue.num 1], [PinValue.num 12], [PinValue.txt "PEP"],
      [PinValue.txt "prot"], [PinValue.num 1]]

/-- Dataset that `readPin` produces on `parsePinExample`. -/
def parsePinExampleDataset : LinearPsmDataset :=
  { psms := setColumn parsePinExample "Label" convertLabel
    target_column := "Label"
    spectrum_columns := ["ScanNr"]
    peptide_columns := ["Peptide"]
    protein_column := "Proteins"
    feature_columns := ["index"] }

theorem parse_pin_index_is_feature_witness :
    readPin (parsePin ["SpecId", "ScanNr", "Peptide", "Proteins", "Label"] 1
      [[PinValue.num 1], [PinValue.num 12], [PinValue.txt "PEP"],
        [PinValue.txt "prot"], [PinValue.num 1]]) =
      .ok parsePinExampleDataset ∧
    "index" ∈ parsePinExampleDataset.feature_columns :=
  ⟨rfl,
    (parse_pin_index_is_feature ["SpecId", "ScanNr", "Peptide", "Proteins",
      "Label"] 1 [[PinValue.num 1], [PinValue.num 12], [PinValue.txt "PEP"],
        [PinValue.txt "prot"], [PinValue.num 1]]).2.2.2
      parsePinExampleDataset rfl⟩

/-- Two-row PIN table with the PIN label encoding `{1, -1}` in its label
column. -/
def pinLabelExample : PinTable :=
  { columns := ["SpecId", "ScanNr", "Peptide", "Proteins", "Label"]
    colValues := [[.num 1, .num 2], [.num 11, .num 12],
      [.txt "PEPA", .txt "PEPB"], [.txt "protA", .txt "protB"],
      [.num 1, .num (-1)]] }

/-- Dataset that `readPin` produces on `pinLabelExample`. -/
def pinLabelExampleDataset : LinearPsmDataset :=
  { psms := setColumn pinLabelExample "Label" convertLabel
    target_column := "Label"
    spectrum_columns := ["ScanNr"]
    peptide_columns := ["Peptide"]
    protein_column := "Proteins"
    feature_columns := [] }

/-- C6 counterexample: on a PIN table whose label column holds the PIN
encoding `[1, -1]`, read_pin applies the `(raw + 1) / 2` remap anyway (line
76 of parsers.py runs unconditionally), and the resulting dataset's label
column is `[1, 0]`: the decoy label `-1` is not carried unchanged, and the
value `0` lies outside the claimed canonical domain `{+1, -1}`. -/
theorem read_pin_label_counterexample :
    getColumn pinLabelExample "Label" = [PinValue.num 1, PinValue.num (-1)] ∧
    (readPin pinLabelExample).map
      (fun d => getColumn d.psms d.target_column) =
      .ok [PinValue.num 1, PinValue.num 0] ∧
    (readPin pinLabelExample).map
      (fun d => getColumn d.psms d.target_column) ≠
      .ok [PinValue.num 1, PinValue.num (-1)] ∧
    ¬(PinValue.num 0 = PinValue.num 1 ∨
      PinValue.num 0 = PinValue.num (-1)) := by
  have h0 : readPin pinLabelExample = .ok pinLabelExampleDataset := rfl
  have h1 : getColumn pinLabelExampleDataset.psms
      pinLabelExampleDataset.target_column =
      [PinValue.num ((1 + 1) / 2), PinValue.num ((-1 + 1) / 2)] := rfl
  have hmap : (readPin pinLabelExample).map
      (fun d => getColumn d.psms d.target_column) =
      .ok [PinValue.num 1, PinValue.num 0] := by
    rw [h0, Except.map, h1]
    norm_num
  refine ⟨rfl, hmap, ?_, by norm_num⟩
  intro hB
  rw [hmap] at hB
  norm_num at hB

/-- C6 (amended): after read_pin loads a PIN table, the `(raw + 1) / 2`
remap has been applied to the label column unconditionally — not only for
`{0, 1}`-encoded sources — so the PIN labels `{+1, -1}` land in the
internal domain `{1, 0}`: each `+1` target label is carried to `1` and
each `-1` decoy label to `0`. -/
theorem read_pin_label_remap (t : PinTable) (d : LinearPsmDataset)
    (h : readPin t = .ok d) :
    getColumn d.psms d.target_column =
      (getColumn t d.target_column).map convertLabel ∧
    convertLabel (PinValue.num 1) = PinValue.num 1 ∧
    convertLabel (PinValue.num (-1)) = PinValue.num 0 := by
  refine ⟨?_, by norm_num [convertLabel], by norm_num [convertLabel]⟩
  unfold readPin at h
  by_cases h1 : 1 < (labelCols t.columns).length
  · rw [if_pos h1] at h
    cases h
  · rw [if_neg h1] at h
    by_cases h2 : 1 < (proteinCols t.columns).length
    · rw [if_pos h2] at h
      cases h
    · rw [if_neg h2] at h
      split at h
      · cases h
        simp [getColumn, setColumn, getColAux_setColAux]
      · cases h

theorem read_pin_label_remap_witness :
    readPin pinLabelExample = .ok pinLabelExampleDataset ∧
    (getColumn pinLabelExampleDataset.psms
        pinLabelExampleDataset.target_column =
      (getColumn pinLabelExample
        pinLabelExampleDataset.target_column).map convertLabel ∧
    convertLabel (PinValue.num 1) = PinValue.num 1 ∧
    convertLabel (PinValue.num (-1)) = PinValue.num 0) :=
  ⟨rfl, read_pin_label_remap pinLabelExample pinLabelExampleDataset rfl⟩

/-! ## CLI entry point (`mokapot/brew_rollup.py`, embedded from the source) -/

/-- Outcome of running `main()` of brew_rollup.py: normal return, or an
uncaught exception carrying its message.  Python's `SystemExit` control
flow (e.g. argparse's usage-error exit), which is not an `Exception`, is
outside this model. -/
inductive MainOutcome where
  | ok
  | exc (msg : String)
deriving DecidableEq

/-- Embeds the `__main__` block of brew_rollup.py (lines 181–186): `main()`
runs under `try`; any uncaught `Exception` is logged and the process exits
via `sys.exit(250)`, while on normal return the script falls off the end
and the interpreter exits with code 0. -/
def brewRollupExitCode : MainOutcome → ℕ
  | .ok => 0
  | .exc _ => 250

/-- C8: the brew_rollup command-line entry point terminates with exit code
250 whenever any uncaught exception propagates to the top level, and with
exit code 0 on success; moreover exit code 0 occurs only on success. -/
theorem brew_rollup_exit_codes (msg : String) :
    brewRollupExitCode (.exc msg) = 250 ∧ brewRollupExitCode .ok = 0 ∧
    ∀ o : MainOutcome, brewRollupExitCode o = 0 ↔ o = .ok := by
  refine ⟨rfl, rfl, ?_⟩
  intro o
  cases o <;> simp [brewRollupExitCode]


/-! ## Identity fingerprint hasher (spec §4.1)

`OnDiskPsmDataset._hash_row` of `dataset.py` is not part of the source
tree; the hasher is modelled from the specification. -/

/-- Bitwise exclusive-or of the low `fuel` bits of two naturals, written
with structural fuel so that it evaluates by kernel reduction. -/
def xorAux : ℕ → ℕ → ℕ → ℕ
  | 0, _, _ => 0
  | fuel + 1, a, b =>
    (if a % 2 = b % 2 then 0 else 1) + 2 * xorAux fuel (a / 2) (b / 2)

/-- 32-bit exclusive-or. -/
def xor32 (a b : ℕ) : ℕ := xorAux 32 a b

/-- Byte-indexed table of the reflected CRC-32 polynomial `0xEDB88320`:
entry `i` is `i` taken through eight shift-and-conditionally-xor
rounds. -/
def crcTable : List ℕ := [0, 1996959894, 3993919788, 2567524794, 124634137, 1886057615, 3915621685, 2657392035, 249268274, 2044508324, 3772115230, 2547177864, 162941995, 2125561021, 3887607047, 2428444049, 498536548, 1789927666, 4089016648, 2227061214, 450548861, 1843258603, 4107580753, 2211677639, 325883990, 1684777152, 4251122042, 2321926636, 335633487, 1661365465, 4195302755, 2366115317, 997073096, 1281953886, 3579855332, 2724688242, 1006888145, 1258607687, 3524101629, 2768942443, 901097722, 1119000684, 3686517206, 2898065728, 853044451, 1172266101, 3705015759, 2882616665, 651767980, 1373503546, 3369554304, 3218104598, 565507253, 1454621731, 3485111705, 3099436303, 671266974, 1594198024, 3322730930, 2970347812, 795835527, 1483230225, 3244367275, 3060149565, 1994146192, 31158534, 2563907772, 4023717930, 1907459465, 112637215, 2680153253, 3904427059, 2013776290, 251722036, 2517215374, 3775830040, 2137656763, 141376813, 2439277719, 3865271297, 1802195444, 476864866, 2238001368, 4066508878, 1812370925, 453092731, 2181625025, 4111451223, 1706088902, 314042704, 2344532202, 4240017532, 1658658271, 366619977, 2362670323, 4224994405, 1303535960, 984961486, 2747007092, 3569037538, 1256170817, 1037604311, 2765210733, 3554079995, 1131014506, 879679996, 2909243462, 3663771856, 1141124467, 855842277, 2852801631, 3708648649, 1342533948, 654459306, 3188396048, 3373015174, 1466479909, 544179635, 3110523913, 3462522015, 1591671054, 702138776, 2966460450, 3352799412, 1504918807, 783551873, 3082640443, 3233442989, 3988292384, 2596254646, 62317068, 1957810842, 3939845945, 2647816111, 81470997, 1943803523, 3814918930, 2489596804, 225274430, 2053790376, 3826175755, 2466906013, 167816743, 2097651377, 4027552580, 2265490386, 503444072, 1762050814, 4150417245, 2154129355, 426522225, 1852507879, 4275313526, 2312317920, 282753626, 1742555852, 4189708143, 2394877945, 397917763, 1622183637, 3604390888, 2714866558, 953729732, 1340076626, 3518719985, 2797360999, 1068828381, 1219638859, 3624741850, 2936675148, 906185462, 1090812512, 3747672003, 2825379669, 829329135, 1181335161, 3412177804, 3160834842, 628085408, 1382605366, 3423369109, 3138078467, 570562233, 1426400815, 3317316542, 2998733608, 733239954, 1555261956, 3268935591, 3050360625, 752459403, 1541320221, 2607071920, 3965973030, 1969922972, 40735498, 2617837225, 3943577151, 1913087877, 83908371, 2512341634, 3803740692, 2075208622, 213261112, 2463272603, 3855990285, 2094854071, 198958881, 2262029012, 4057260610, 1759359992, 534414190, 2176718541, 4139329115, 1873836001, 414664567, 2282248934, 4279200368, 1711684554, 285281116, 2405801727, 4167216745, 1634467795, 376229701, 2685067896, 3608007406, 1308918612, 956543938, 2808555105, 3495958263, 1231636301, 1047427035, 2932959818, 3654703836, 1088359270, 936918000, 2847714899, 3736837829, 1202900863, 817233897, 3183342108, 3401237130, 1404277552, 615818150, 3134207493, 3453421203, 1423857449, 601450431, 3009837614, 3294710456, 1567103746, 711928724, 3020668471, 3272380065, 1510334235, 755167117]

/-- One byte of the standard (zlib) CRC-32: shift the state right by one
byte and fold in the table entry selected by the low state byte xor the
input byte. -/
def crc32Update (crc b : ℕ) : ℕ :=
  xor32 (crc / 256) (crcTable.getD (xorAux 8 (crc % 256) b) 0)

/-- CRC-32 state threaded over a byte sequence. -/
def crc32List : ℕ → List ℕ → ℕ
  | crc, [] => crc
  | crc, b :: bs => crc32List (crc32Update crc b) bs

/-- Standard CRC-32 of a byte sequence: state initialised to and finally
xored with `0xFFFFFFFF`. -/
def crc32 (bytes : List ℕ) : ℕ :=
  xor32 (crc32List 4294967295 bytes) 4294967295

/-- Decimal digit as a character. -/
def digitChar (d : ℕ) : Char := Char.ofNat (48 + d)

/-- Decimal rendering of a natural number, most significant digit first,
with structural fuel. -/
def natDigitsAux : ℕ → ℕ → List Char
  | 0, _ => []
  | fuel + 1, n =>
    if n < 10 then [digitChar n]
    else natDigitsAux fuel (n / 10) ++ [digitChar (n % 10)]

/-- Canonical decimal rendering of an integer. -/
def canonInt (v : ℤ) : List Char :=
  if v < 0 then Char.ofNat 45 :: natDigitsAux 30 v.natAbs
  else natDigitsAux 30 v.natAbs

/-- Modelled from the spec: one identity-field value of §4.1.  Numeric
values may arrive in different but numerically-equal representations; the
`width` records the representation width of the arriving value (`0` for a
native Python value, `64` for a NumPy 64-bit scalar) and is exactly the
information canonicalization must discard.  A floating value is carried by
its shortest round-trip decimal rendering, the canonical textual form its
logical value is identified with. -/
inductive FieldValue where
  | fstr (s : String)
  | fint (width : ℕ) (v : ℤ)
  | ffloat (width : ℕ) (repr10 : String)
deriving DecidableEq

/-- Modelled from the spec: canonical character rendering of one field
value, independent of the representation width: a string is wrapped in
apostrophes (code 39) as Python repr does, and numeric values render as
their decimal text. -/
def canonField : FieldValue → List Char
  | .fstr s => Char.ofNat 39 :: (s.data ++ [Char.ofNat 39])
  | .fint _ v => canonInt v
  | .ffloat _ r => r.data

/-- Comma-space separated join of rendered fields. -/
def joinComma : List (List Char) → List Char
  | [] => []
  | [s] => s
  | s :: rest => s ++ (Char.ofNat 44 :: Char.ofNat 32 :: joinComma rest)

/-- Modelled from the spec: the canonical textual form of the ordered
identity tuple, `(field, field, …)` as Python renders a tuple; the
combination is order-sensitive because the fields are concatenated in
order. -/
def canonTuple (fs : List FieldValue) : List Char :=
  Char.ofNat 40 :: (joinComma (fs.map canonField) ++ [Char.ofNat 41])

/-- Modelled from the spec: the identity fingerprint hasher of §4.1:
normalize each value to its canonical textual form (discarding the numeric
representation width), combine order-sensitively into the tuple rendering,
and reduce to a bounded-width unsigned integer, here by the standard
CRC-32 of the rendered bytes, which reproduces the repository's
documented hash value.  A pure function of its input. -/
def hashRow (fs : List FieldValue) : ℕ :=
  crc32 ((canonTuple fs).map Char.toNat)

/-- Two field values are the same logical value when they agree up to the
numeric representation width. -/
def sameLogical : FieldValue → FieldValue → Prop
  | .fstr a, .fstr b => a = b
  | .fint _ a, .fint _ b => a = b
  | .ffloat _ a, .ffloat _ b => a = b
  | _, _ => False

theorem canonField_eq (x y : FieldValue) (h : sameLogical x y) :
    canonField x = canonField y := by
  cases x <;> cases y <;> simp_all [sameLogical, canonField]

theorem canonTuple_eq (xs ys : List FieldValue)
    (h : List.Forall₂ sameLogical xs ys) : canonTuple xs = canonTuple ys := by
  have hmap : xs.map canonField = ys.map canonField := by
    induction h with
    | nil => rfl
    | cons hxy _ ih => simp [canonField_eq _ _ hxy, ih]
  rw [canonTuple, canonTuple, hmap]

theorem crc32_identity_tuple :
    crc32 [40, 39, 116, 101, 115, 116, 46, 109, 122, 77, 76, 39, 44, 32, 56, 55, 48, 44, 32, 53, 57, 48, 50, 46, 54, 51, 57, 57, 55, 56, 57, 51, 54, 57, 53, 53, 44, 32, 56, 57, 48, 46, 53, 50, 50, 56, 49, 53, 49, 50, 50, 56, 55, 53, 41] = 4196757312 := by
  have s0 : crc32Update 4294967295 40 = 407419016 := by decide
  have s1 : crc32Update 407419016 39 = 1181873857 := by decide
  have s2 : crc32Update 1181873857 116 = 3142399733 := by decide
  have s3 : crc32Update 3142399733 101 = 4038385266 := by decide
  have s4 : crc32Update 4038385266 115 = 2012709960 := by decide
  have s5 : crc32Update 2012709960 116 = 790137603 := by decide
  have s6 : crc32Update 790137603 46 = 1173374206 := by decide
  have s7 : crc32Update 1173374206 109 = 1766011578 := by decide
  have s8 : crc32Update 1766011578 122 = 2601353602 := by decide
  have s9 : crc32Update 2601353602 77 = 188797600 := by decide
  have s10 : crc32Update 188797600 76 = 2847403649 := by decide
  have s11 : crc32Update 2847403649 39 = 1058844979 := by decide
  have s12 : crc32Update 1058844979 44 = 2369196356 := by decide
  have s13 : crc32Update 2369196356 32 = 1246925392 := by decide
  have s14 : crc32Update 1246925392 56 = 1126415352 := by decide
  have s15 : crc32Update 1126415352 55 = 194575514 := by decide
  have s16 : crc32Update 194575514 48 = 906547722 := by decide
  have s17 : crc32Update 906547722 44 = 3527118127 := by decide
  have s18 : crc32Update 3527118127 32 = 2423072284 := by decide
  have s19 : crc32Update 2423072284 53 = 1109587274 := by decide
  have s20 : crc32Update 1109587274 57 = 3377332851 := by decide
  have s21 : crc32Update 3377332851 48 = 4011613736 := by decide
  have s22 : crc32Update 4011613736 50 = 4253934884 := by decide
  have s23 : crc32Update 4253934884 46 = 3760743675 := by decide
  have s24 : crc32Update 3760743675 54 = 3845494377 := by decide
  have s25 : crc32Update 3845494377 51 = 2338033020 := by decide
  have s26 : crc32Update 2338033020 57 = 104722066 := by decide
  have s27 : crc32Update 104722066 57 = 1090668430 := by decide
  have s28 : crc32Update 1090668430 55 = 3002861935 := by decide
  have s29 : crc32Update 3002861935 56 = 4122818654 := by decide
  have s30 : crc32Update 4122818654 57 = 3542305219 := by decide
  have s31 : crc32Update 3542305219 51 = 3178156373 := by decide
  have s32 : crc32Update 3178156373 54 = 3557187123 := by decide
  have s33 : crc32Update 3557187123 57 = 3758223168 := by decide
  have s34 : crc32Update 3758223168 53 = 546276444 := by decide
  have s35 : crc32Update 546276444 53 = 877549176 := by decide
  have s36 : crc32Update 877549176 44 = 1815272379 := by decide
  have s37 : crc32Update 1815272379 32 = 1739683863 := by decide
  have s38 : crc32Update 1739683863 56 = 2880867361 := by decide
  have s39 : crc32Update 2880867361 57 = 331820762 := by decide
  have s40 : crc32Update 331820762 48 = 1087163464 := by decide
  have s41 : crc32Update 1087163464 46 = 2760968353 := by decide
  have s42 : crc32Update 2760968353 53 = 4156999253 := by decide
  have s43 : crc32Update 4156999253 50 = 3542168125 := by decide
  have s44 : crc32Update 3542168125 50 = 2423012515 := by decide
  have s45 : crc32Update 2423012515 56 = 1733109488 := by decide
  have s46 : crc32Update 1733109488 49 = 3959734016 := by decide
  have s47 : crc32Update 3959734016 53 = 1449115804 := by decide
  have s48 : crc32Update 1449115804 49 = 2821816469 := by decide
  have s49 : crc32Update 2821816469 50 = 1209665483 := by decide
  have s50 : crc32Update 1209665483 50 = 3291041983 := by decide
  have s51 : crc32Update 3291041983 56 = 1930969043 := by decide
  have s52 : crc32Update 1930969043 55 = 2803121758 := by decide
  have s53 : crc32Update 2803121758 53 = 3670519022 := by decide
  have s54 : crc32Update 3670519022 41 = 98209983 := by decide
  simp only [crc32, crc32List, s0, s1, s2, s3, s4, s5, s6, s7, s8, s9, s10, s11, s12, s13, s14, s15, s16, s17, s18, s19, s20, s21, s22, s23, s24, s25, s26, s27, s28, s29, s30, s31, s32, s33, s34, s35, s36, s37, s38, s39, s40, s41, s42, s43, s44, s45, s46, s47, s48, s49, s50, s51, s52, s53, s54]
  decide


/-- C4: the identity fingerprint hasher is a pure deterministic function of
the ordered identity tuple: hashing ("test.mzML", 870, 5902.639978936955,
890.522815122875) yields 4196757312; hashing the same logical values in
64-bit NumPy representations yields the same value; and in general any two
field lists equal up to numeric representation width hash identically,
because each value is canonicalized before hashing. -/
theorem hash_row_stable :
    hashRow [FieldValue.fstr "test.mzML", FieldValue.fint 0 870,
      FieldValue.ffloat 0 "5902.639978936955", FieldValue.ffloat 0 "890.522815122875"] = 4196757312 ∧
    hashRow [FieldValue.fstr "test.mzML", FieldValue.fint 64 870,
      FieldValue.ffloat 64 "5902.639978936955", FieldValue.ffloat 64 "890.522815122875"] = 4196757312 ∧
    ∀ xs ys, List.Forall₂ sameLogical xs ys → hashRow xs = hashRow ys := by
  have hgen : ∀ xs ys, List.Forall₂ sameLogical xs ys →
      hashRow xs = hashRow ys := by
    intro xs ys h
    rw [hashRow, hashRow, canonTuple_eq xs ys h]
  have hbytes : (canonTuple [FieldValue.fstr "test.mzML", FieldValue.fint 0 870,
      FieldValue.ffloat 0 "5902.639978936955", FieldValue.ffloat 0 "890.522815122875"]).map Char.toNat = [40, 39, 116, 101, 115, 116, 46, 109, 122, 77, 76, 39, 44, 32, 56, 55, 48, 44, 32, 53, 57, 48, 50, 46, 54, 51, 57, 57, 55, 56, 57, 51, 54, 57, 53, 53, 44, 32, 56, 57, 48, 46, 53, 50, 50, 56, 49, 53, 49, 50, 50, 56, 55, 53, 41] := by
    decide
  have h1 : hashRow [FieldValue.fstr "test.mzML", FieldValue.fint 0 870,
      FieldValue.ffloat 0 "5902.639978936955", FieldValue.ffloat 0 "890.522815122875"] = 4196757312 := by
    rw [hashRow, hbytes]
    exact crc32_identity_tuple
  refine ⟨h1, ?_, hgen⟩
  rw [hgen [FieldValue.fstr "test.mzML", FieldValue.fint 64 870,
      FieldValue.ffloat 64 "5902.639978936955", FieldValue.ffloat 64 "890.522815122875"] [FieldValue.fstr "test.mzML", FieldValue.fint 0 870,
      FieldValue.ffloat 0 "5902.639978936955", FieldValue.ffloat 0 "890.522815122875"]
    (List.Forall₂.cons rfl (List.Forall₂.cons rfl (List.Forall₂.cons rfl
      (List.Forall₂.cons rfl List.Forall₂.nil))))]
  exact h1

theorem hash_row_stable_witness :
    List.Forall₂ sameLogical
      [FieldValue.fstr "test.mzML", FieldValue.fint 64 870,
      FieldValue.ffloat 64 "5902.639978936955", FieldValue.ffloat 64 "890.522815122875"]
      [FieldValue.fstr "test.mzML", FieldValue.fint 0 870,
      FieldValue.ffloat 0 "5902.639978936955", FieldValue.ffloat 0 "890.522815122875"] ∧
    hashRow [FieldValue.fstr "test.mzML", FieldValue.fint 64 870,
      FieldValue.ffloat 64 "5902.639978936955", FieldValue.ffloat 64 "890.522815122875"] =
      hashRow [FieldValue.fstr "test.mzML", FieldValue.fint 0 870,
      FieldValue.ffloat 0 "5902.639978936955", FieldValue.ffloat 0 "890.522815122875"] :=
  ⟨List.Forall₂.cons rfl (List.Forall₂.cons rfl (List.Forall₂.cons rfl
      (List.Forall₂.cons rfl List.Forall₂.nil))),
    hash_row_stable.2.2
      [FieldValue.fstr "test.mzML", FieldValue.fint 64 870,
      FieldValue.ffloat 64 "5902.639978936955", FieldValue.ffloat 64 "890.522815122875"]
      [FieldValue.fstr "test.mzML", FieldValue.fint 0 870,
      FieldValue.ffloat 0 "5902.639978936955", FieldValue.ffloat 0 "890.522815122875"]
      (List.Forall₂.cons rfl (List.Forall₂.cons rfl (List.Forall₂.cons rfl
        (List.Forall₂.cons rfl List.Forall₂.nil))))⟩

/-! ## Rollup orchestrator (spec §4.6)

`rollup.py` is not part of the source tree; the orchestrator is modelled
from the specification. -/

/-- Modelled from the spec: one scored result row consumed by the rollup
orchestrator: the run-unique identifier (`PSMId`), the group key of the
chosen aggregation level, the score, the target/decoy label and the
identity fingerprint used for tie-breaking. -/
structure RollupRow where
  psmId : ℕ
  groupKey : String
  score : ℚ
  target : Bool
  fingerprint : ℕ
deriving DecidableEq

/-- The logical content of a row: everything except the run-unique
identifier, which §4.6 and §8 exclude from the determinism comparison. -/
structure RollupEntry where
  groupKey : String
  score : ℚ
  target : Bool
  fingerprint : ℕ
deriving DecidableEq

/-- Drop the run-unique identifier. -/
def RollupRow.strip (r : RollupRow) : RollupEntry :=
  { groupKey := r.groupKey, score := r.score, target := r.target
    fingerprint := r.fingerprint }

/-- Lexicographic key of an entry, used for the canonical ordering. -/
def entryKey (e : RollupEntry) : Lex (String × Lex (ℚ × Lex (ℕ × Bool))) :=
  toLex (e.groupKey, toLex (e.score, toLex (e.fingerprint, e.target)))

theorem entryKey_injective : Function.Injective entryKey := by
  intro a b h
  cases a
  cases b
  simp_all [entryKey, Prod.ext_iff]

instance : LinearOrder RollupEntry :=
  LinearOrder.lift' entryKey entryKey_injective

/-- Canonical presentation of the logical input: the multiset of stripped
rows listed in the canonical order.  Two inputs with the same logical rows
have the same canonical presentation however the rows are ordered or split
across files. -/
def canonicalEntries (rows : List RollupRow) : List RollupEntry :=
  (↑(rows.map RollupRow.strip) : Multiset RollupEntry).sort (· ≤ ·)

/-- Modelled from the spec: the better of two competing entries of one
group per §4.3: the higher score wins and a score tie goes to the smaller
fingerprint. -/
def betterEntry (a b : RollupEntry) : RollupEntry :=
  if b.score < a.score ∨ (a.score = b.score ∧ a.fingerprint ≤ b.fingerprint)
  then a else b

/-- Fold one entry into the association list of current per-group
winners. -/
def insertBest (e : RollupEntry) :
    List (String × RollupEntry) → List (String × RollupEntry)
  | [] => [(e.groupKey, e)]
  | (k, w) :: rest =>
    if k = e.groupKey then (k, betterEntry w e) :: rest
    else (k, w) :: insertBest e rest

/-- Modelled from the spec: the best-entry selector of §4.3 over the
canonical entry list: exactly one winning entry per group key. -/
def selectWinners (es : List RollupEntry) : List RollupEntry :=
  (es.foldl (fun acc e => insertBest e acc) []).map Prod.snd

/-- Output-order test of §4.6: score descending, fingerprint ascending as
the deterministic tie-break. -/
def outBefore (a b : RollupEntry) : Bool :=
  decide (b.score < a.score) ||
    (decide (a.score = b.score) && decide (a.fingerprint ≤ b.fingerprint))

/-- Insertion step of the output ordering. -/
def insertOut (e : RollupEntry) : List RollupEntry → List RollupEntry
  | [] => [e]
  | x :: xs => if outBefore e x then e :: x :: xs else x :: insertOut e xs

/-- Insertion sort into the output ordering. -/
def sortOut : List RollupEntry → List RollupEntry
  | [] => []
  | e :: es => insertOut e (sortOut es)

/-- One written result row: an entry with its q-value. -/
structure ResultRow where
  entry : RollupEntry
  qvalue : ℚ
deriving DecidableEq

/-- Modelled from the spec: the per-level rollup pipeline of §4.6 as a
function of the logical input rows: canonicalize, select the per-group
winners (§4.3), estimate q-values on the winners (§4.4, at score
granularity as in `qvalueAt`), order the output by score descending with
the fingerprint tie-break, and split it into the target and the decoy
tables. -/
def doRollup (rows : List RollupRow) : List ResultRow × List ResultRow :=
  let winners := selectWinners (canonicalEntries rows)
  let scored := winners.map (fun e => ScoredLabel.mk e.score e.target)
  let ordered := sortOut winners
  ((ordered.filter (fun e => e.target)).map
      (fun e => { entry := e, qvalue := qvalueAt scored e.score }),
    (ordered.filter (fun e => !e.target)).map
      (fun e => { entry := e, qvalue := qvalueAt scored e.score }))

/-- C5: running the rollup pipeline twice on identical logical input — the
same rows, the same rows split differently across files or listed in a
different order, or rows differing only in the run-unique identifier
column (`PSMId`) — produces identical target and decoy output tables for
the processed aggregation level. -/
theorem do_rollup_deterministic :
    (∀ rows1 rows2 : List RollupRow,
      (rows1.map RollupRow.strip).Perm (rows2.map RollupRow.strip) →
      doRollup rows1 = doRollup rows2) ∧
    (∀ (rows : List RollupRow) (f : ℕ → ℕ),
      doRollup (rows.map (fun r => { r with psmId := f r.psmId })) =
        doRollup rows) := by
  have hmain : ∀ rows1 rows2 : List RollupRow,
      (rows1.map RollupRow.strip).Perm (rows2.map RollupRow.strip) →
      doRollup rows1 = doRollup rows2 := by
    intro rows1 rows2 h
    have hcanon : canonicalEntries rows1 = canonicalEntries rows2 := by
      unfold canonicalEntries
      rw [Multiset.coe_eq_coe.mpr h]
    unfold doRollup
    rw [hcanon]
  refine ⟨hmain, ?_⟩
  intro rows f
  apply hmain
  have hstrip : (rows.map (fun r => { r with psmId := f r.psmId })).map
      RollupRow.strip = rows.map RollupRow.strip := by
    simp [List.map_map, Function.comp, RollupRow.strip]
  rw [hstrip]

theorem do_rollup_deterministic_witness :
    ((([⟨1, "AAA", 5, true, 10⟩, ⟨2, "BBB", 3, false, 7⟩] :
        List RollupRow).map RollupRow.strip).Perm
      (([⟨8, "BBB", 3, false, 7⟩, ⟨9, "AAA", 5, true, 10⟩] :
        List RollupRow).map RollupRow.strip)) ∧
    doRollup [⟨1, "AAA", 5, true, 10⟩, ⟨2, "BBB", 3, false, 7⟩] =
      doRollup [⟨8, "BBB", 3, false, 7⟩, ⟨9, "AAA", 5, true, 10⟩] :=
  ⟨List.Perm.swap _ _ _,
    do_rollup_deterministic.1 _ _ (List.Perm.swap _ _ _)⟩

/-! ## Dataset immutability (spec §3 lifecycle)

`dataset.py` is not part of the source tree; the construction-time copy and
the relabeling are modelled from the specification, over an explicit heap
of data frames so that mutation of the caller's frame is expressible. -/

/-- The caller-visible data frame of the model: the target column and the
numeric feature cells. -/
structure DataFrame where
  targets : List Bool
  featureData : List (List ℚ)
deriving DecidableEq

/-- Read a heap cell. -/
def heapGet (h : List DataFrame) (i : ℕ) : DataFrame :=
  h.getD i ⟨[], []⟩

/-- Overwrite a heap cell: the caller mutating its own frame in place. -/
def heapSet (h : List DataFrame) (i : ℕ) (t : DataFrame) : List DataFrame :=
  h.set i t

/-- A constructed dataset: the heap cell its data lives in. -/
structure HeapDataset where
  dataRef : ℕ
deriving DecidableEq

/-- Modelled from the spec: `LinearPsmDataset` construction from the frame
in cell `callerRef`.  With `copy_data = true` the constructor allocates a
fresh cell holding a copy of the caller's current frame and the dataset
refers to the fresh cell; with `copy_data = false` it would keep a
reference to the caller's cell. -/
def constructDataset (h : List DataFrame) (callerRef : ℕ) (copyData : Bool) :
    List DataFrame × HeapDataset :=
  if copyData then (h ++ [heapGet h callerRef], { dataRef := h.length })
  else (h, { dataRef := callerRef })

/-- Modelled from the spec: `_update_labels` of §4.2 run on a constructed
dataset: it reads the stored targets, pairs them with the given scores and
returns the fresh 3-state label array together with the heap it leaves
behind — which is the heap it was given, unmodified. -/
def datasetUpdateLabels (h : List DataFrame) (d : HeapDataset)
    (scores : List ℚ) (evalFDR : ℚ) : List ℤ × List DataFrame :=
  (updateLabels (List.zipWith ScoredLabel.mk scores
    (heapGet h d.dataRef).targets) evalFDR, h)

/-- Reading the freshly appended cell is unaffected by overwriting an
earlier cell. -/
theorem getD_set_append_len (h : List DataFrame) (r : ℕ) (t x d : DataFrame)
    (hne : r ≠ h.length) :
    ((h ++ [x]).set r t).getD h.length d = x := by
  have hlen2 : h.length < ((h ++ [x]).set r t).length := by simp
  rw [List.getD_eq_getElem _ _ hlen2, List.getElem_set_ne hne,
    List.getElem_append_right (le_refl h.length)]
  simp

/-- C9: a dataset is immutable after construction: with `copy_data = true`,
mutating the caller's source frame after construction leaves the dataset's
stored frame unchanged (it still reads as the frame copied at construction
time), and `_update_labels` returns a new label array while leaving the
heap — including the stored target column — unmodified. -/
theorem dataset_immutable :
    (∀ (h : List DataFrame) (r : ℕ) (t : DataFrame), r < h.length →
      heapGet (heapSet (constructDataset h r true).1 r t)
        (constructDataset h r true).2.dataRef = heapGet h r) ∧
    (∀ (h : List DataFrame) (d : HeapDataset) (scores : List ℚ) (fdr : ℚ),
      (datasetUpdateLabels h d scores fdr).2 = h ∧
      (datasetUpdateLabels h d scores fdr).1 =
        updateLabels (List.zipWith ScoredLabel.mk scores
          (heapGet h d.dataRef).targets) fdr) := by
  constructor
  · intro h r t hr
    have hne : r ≠ h.length := Nat.ne_of_lt hr
    have hred : constructDataset h r true =
        (h ++ [heapGet h r], { dataRef := h.length }) := by
      simp [constructDataset]
    rw [hred]
    dsimp only
    simp only [heapSet, heapGet]
    exact getD_set_append_len h r t _ _ hne
  · intro h d scores fdr
    exact ⟨rfl, rfl⟩

theorem dataset_immutable_witness :
    (0 < ([⟨[true], [[1]]⟩] : List DataFrame).length) ∧
    heapGet (heapSet
        (constructDataset [(⟨[true], [[1]]⟩ : DataFrame)] 0 true).1 0
        ⟨[false], [[2]]⟩)
      (constructDataset [(⟨[true], [[1]]⟩ : DataFrame)] 0 true).2.dataRef =
      heapGet [(⟨[true], [[1]]⟩ : DataFrame)] 0 :=
  ⟨by simp,
    dataset_immutable.1 [(⟨[true], [[1]]⟩ : DataFrame)] 0 ⟨[false], [[2]]⟩
      (by simp)⟩
